import Mathlib

/-!
Verification of the columnar data engine of `app/functions.py`
(custom DataFrame, CSV line parser, type inference, groupby/aggregate,
join, sort, and the parallel chunked CSV reader).

Python scalars stored in a table are modelled by `Value`:
`None` is `Value.null`, `int` is `Value.int` over `Int`, `float` is
`Value.float` over `Rat` (decimal literals are represented exactly;
none of the verified properties depends on binary rounding), and `str`
is `Value.str`.

A Python `dict` keyed by strings (the `self.data` attribute) is
modelled as an association list with unique keys in insertion order;
assigning to an existing key overwrites the stored value in place,
assigning to a fresh key appends.
-/

inductive Value where
  | null : Value
  | int : Int → Value
  | float : Rat → Value
  | str : String → Value
deriving DecidableEq, Repr

namespace Value

/-- The numeric content of an `int` or `float` value, as a rational. -/
def toRat : Value → Rat
  | .int n => (n : Rat)
  | .float q => q
  | _ => 0

/-- Whether a value is numeric (`int` or `float`). -/
def isNum : Value → Bool
  | .int _ => true
  | .float _ => true
  | _ => false

end Value

/-- Python `==` on the scalars stored in a table: `None` equals only
`None`, numbers compare by numeric value (`1 == 1.0` is true), strings
compare by contents, and values of unrelated kinds are unequal. -/
def pyEq : Value → Value → Bool
  | .null, .null => true
  | .int n, .int m => n == m
  | .int n, .float q => (n : Rat) == q
  | .float q, .int n => q == (n : Rat)
  | .float q, .float r => q == r
  | .str s, .str t => s == t
  | _, _ => false

/-- Python `<` on scalars, restricted to the comparable cases: numbers
compare numerically, strings lexicographically by code points.  On the
incomparable cases (where CPython raises `TypeError`) the function
returns `false`; theorems that depend on comparisons carry a mutual
comparability hypothesis. -/
def pyLtB : Value → Value → Bool
  | .int n, .int m => decide (n < m)
  | .int n, .float q => decide ((n : Rat) < q)
  | .float q, .int n => decide (q < (n : Rat))
  | .float q, .float r => decide (q < r)
  | .str s, .str t => decide (s < t)
  | _, _ => false

/-- Two scalars are mutually comparable when both are numeric or both
are strings (exactly the cases where Python `<` does not raise). -/
def Comparable : Value → Value → Prop
  | .int _, .int _ => True
  | .int _, .float _ => True
  | .float _, .int _ => True
  | .float _, .float _ => True
  | .str _, .str _ => True
  | _, _ => False

instance : ∀ v w, Decidable (Comparable v w) := by
  intro v w
  cases v <;> cases w <;> simp only [Comparable] <;> infer_instance

/-- Python `==` on same-length tuples of scalars (grouping keys, sort
keys): pointwise `==`. -/
def tupEq : List Value → List Value → Bool
  | [], [] => true
  | a :: as, b :: bs => pyEq a b && tupEq as bs
  | _, _ => false

/-- Python `<=` on tuples of scalars: lexicographic, skipping equal
components; a strict prefix is smaller. -/
def tupLe : List Value → List Value → Bool
  | [], _ => true
  | _ :: _, [] => false
  | a :: as, b :: bs => if pyEq a b then tupLe as bs else pyLtB a b

/-- Association-list model of a string-keyed Python dict: lookup. -/
def dictGet (d : List (String × List Value)) (k : String) : Option (List Value) :=
  match d with
  | [] => none
  | (k', v) :: rest => if k' = k then some v else dictGet rest k

/-- Association-list model of a string-keyed Python dict: assignment.
An existing key is overwritten in place (its position is kept); a fresh
key is appended at the end, matching dict insertion order. -/
def dictSet (d : List (String × List Value)) (k : String) (v : List Value) :
    List (String × List Value) :=
  match d with
  | [] => [(k, v)]
  | (k', v') :: rest => if k' = k then (k, v) :: rest else (k', v') :: dictSet rest k v

/-- Membership test of the dict model (`key in self.data`). -/
def dictHas (d : List (String × List Value)) (k : String) : Bool :=
  (dictGet d k).isSome

/--
The `DataFrame` of `app/functions.py`: `columns` models the
`self.columns` list of column names and `data` the `self.data` dict
from names to column value lists.  `__init__` always sets
`columns = list(data.keys())`, but `rename_columns` later reassigns
`result.columns`, so the two fields are kept separate exactly as in
the source.
-/
structure DataFrame where
  columns : List String
  data : List (String × List Value)
deriving DecidableEq, Repr

/-- `DataFrame.__init__` from a dict of columns: raises `ValueError`
unless all columns have the same length; `columns` is the dict key
list. -/
def mkDataFrame (d : List (String × List Value)) : Except String DataFrame :=
  if (d.map (fun e => e.2.length)).Pairwise (· = ·) then
    .ok ⟨d.map Prod.fst, d⟩
  else
    .error "All columns must have the same length"

/-- `DataFrame.__len__`: 0 for an empty dict, else the length of the
first stored column. -/
def rowCount (df : DataFrame) : Nat :=
  match df.data with
  | [] => 0
  | (_, v) :: _ => v.length

/-- Well-formedness maintained by every constructed table: the
`columns` list is exactly the dict key list (so keys are what
`__init__` produced) and all columns have equal length. -/
def WF (df : DataFrame) : Prop :=
  df.columns = df.data.map Prod.fst ∧ (df.data.map Prod.fst).Nodup ∧
    ∀ e ∈ df.data, e.2.length = rowCount df

instance : ∀ df, Decidable (WF df) := by
  intro df; unfold WF; infer_instance

/-- Value of column `c` at row `i` (Python `self.data[col][i]`);
total with `null` as the out-of-range junk value. -/
def cellAt (df : DataFrame) (c : String) (i : Nat) : Value :=
  ((dictGet df.data c).getD []).getD i .null

/-!  ## Line/field parser (`parse_csv_line`)  -/

/-- Append a character to the current field, which is the head of the
field list produced for the rest of the line. -/
def consField (c : Char) : List (List Char) → List (List Char)
  | [] => [[c]]
  | f :: fs => (c :: f) :: fs

/-- The scanning loop of `parse_csv_line`, as a recursion over the
remaining characters with the `in_quotes` flag as state.  A `"` while
in quotes and followed by another `"` emits one literal quote and
skips both (`i += 2`); any other `"` toggles the flag and is dropped;
the separator outside quotes closes the current field; everything
else is field content.  Reaching the end of the line closes the last
field, so the empty line yields one empty field. -/
def parseFields (sep : Char) : Bool → List Char → List (List Char)
  | _, [] => [[]]
  | true, '"' :: '"' :: rest => consField '"' (parseFields sep true rest)
  | inQ, '"' :: rest => parseFields sep (!inQ) rest
  | inQ, c :: rest =>
      if c = sep && !inQ then [] :: parseFields sep inQ rest
      else consField c (parseFields sep inQ rest)

/-- `parse_csv_line(line, separator)`: the ordered list of decoded
fields of one physical line. -/
def parse_csv_line (line : String) (sep : Char) : List String :=
  (parseFields sep false line.data).map List.asString

/-!  ## Type inference (`infer_type`)

`int(...)` / `float(...)` argument parsing is modelled for the ASCII
strings a CSV field can hold: surrounding whitespace is stripped, an
optional sign is accepted, and digit groups may use single underscores
between digits.  The `inf`/`infinity`/`nan` spellings accepted by
`float` are omitted: `infer_type` only calls the numeric parsers on
strings whose first character is a digit (or `-` followed by a digit),
so those spellings can never reach them.  -/

/-- Leading/trailing whitespace removal (Python `str.strip()` /
the implicit strip of `int()` and `float()`). -/
def stripChars (l : List Char) : List Char :=
  ((l.dropWhile Char.isWhitespace).reverse.dropWhile Char.isWhitespace).reverse

/-- Python `str.strip()` on a string. -/
def pyStrip (s : String) : String :=
  (stripChars s.data).asString

/-- Validity of the tail of a digit group: digits, with a single
underscore allowed only between two digits. -/
def digitTailOk : List Char → Bool
  | [] => true
  | '_' :: c :: rest => c.isDigit && digitTailOk rest
  | c :: rest => c.isDigit && digitTailOk rest

/-- Validity of a digit group (`digitpart` of the Python numeric
grammar): nonempty, starts with a digit, underscores only between
digits. -/
def digitGroupOk : List Char → Bool
  | [] => false
  | c :: rest => c.isDigit && digitTailOk rest

/-- Numeric value of a digit group, ignoring underscores. -/
def digitsNat (l : List Char) : Nat :=
  (l.filter (fun c => c ≠ '_')).foldl (fun n c => 10 * n + (c.toNat - 48)) 0

/-- Number of actual digits in a digit group (underscores ignored). -/
def digitsLen (l : List Char) : Nat :=
  (l.filter (fun c => c ≠ '_')).length

/-- Python `int(s)` for an ASCII string argument: strip, optional
sign, then a valid digit group; `none` models `ValueError`. -/
def pyIntParse (s : String) : Option Int :=
  match stripChars s.data with
  | '+' :: rest => if digitGroupOk rest then some (digitsNat rest) else none
  | '-' :: rest => if digitGroupOk rest then some (-(digitsNat rest : Int)) else none
  | rest => if digitGroupOk rest then some (digitsNat rest) else none

/-- Mantissa of the Python `float` grammar: `digitpart`, or
`digitpart . [digitpart]`, or `. digitpart`; yields its exact rational
value. -/
def floatMantissa (l : List Char) : Option Rat :=
  match l.splitOn '.' with
  | [ip] => if digitGroupOk ip then some (digitsNat ip : Rat) else none
  | [ip, fp] =>
      let ipOk := ip.isEmpty || digitGroupOk ip
      let fpOk := fp.isEmpty || digitGroupOk fp
      if ipOk && fpOk && !(ip.isEmpty && fp.isEmpty) then
        some ((digitsNat ip : Rat) + (digitsNat fp : Rat) / (10 : Rat) ^ digitsLen fp)
      else none
  | _ => none

/-- Exponent of the Python `float` grammar: optional sign and a digit
group. -/
def floatExponent (l : List Char) : Option Int :=
  match l with
  | '+' :: rest => if digitGroupOk rest then some (digitsNat rest) else none
  | '-' :: rest => if digitGroupOk rest then some (-(digitsNat rest : Int)) else none
  | rest => if digitGroupOk rest then some (digitsNat rest) else none

/-- Unsigned body of the Python `float` grammar: mantissa with an
optional `e`/`E` exponent. -/
def floatBody (l : List Char) : Option Rat :=
  match l.splitOnP (fun c => c = 'e' || c = 'E') with
  | [m] => floatMantissa m
  | [m, e] => do
      let q ← floatMantissa m
      let k ← floatExponent e
      pure (q * (10 : Rat) ^ k)
  | _ => none

/-- Python `float(s)` for an ASCII decimal string: strip, optional
sign, mantissa and exponent; the value is the exact decimal rational.
`none` models `ValueError`. -/
def pyFloatParse (s : String) : Option Rat :=
  match stripChars s.data with
  | '+' :: rest => floatBody rest
  | '-' :: rest => (floatBody rest).map Neg.neg
  | rest => floatBody rest

/-- Whether the first character of the string is a digit
(`value[0].isdigit()`). -/
def headIsDigit (s : String) : Bool :=
  match s.data with
  | c :: _ => c.isDigit
  | [] => false

/-- Whether the string has length > 1, starts with `-` and its second
character is a digit. -/
def headIsNegDigit (s : String) : Bool :=
  match s.data with
  | '-' :: c :: _ => c.isDigit
  | _ => false

/-- `infer_type(value)`: empty string becomes `Null`; a string whose
first character is a digit, or `-` followed by a digit, is tried as
`int` when it contains no `.` and as `float` otherwise; any parse
failure or non-matching shape keeps the original string. -/
def infer_type (value : String) : Value :=
  if value = "" then .null
  else if headIsDigit value || headIsNegDigit value then
    if !(value.data.contains '.') then
      match pyIntParse value with
      | some n => .int n
      | none => .str value
    else
      match pyFloatParse value with
      | some q => .float q
      | none => .str value
  else .str value

/-!  ## Table operations  -/

/-- Build a dict from a list of key/value pairs in order (the dict
comprehensions of the source): later occurrences of a key overwrite
earlier ones in place. -/
def dictOfPairs (ps : List (String × List Value)) : List (String × List Value) :=
  ps.foldl (fun d p => dictSet d p.1 p.2) []

/-- The stored column list of a column name (`self.data[col]`), total
with `[]` as the junk value for a missing key (the source would raise
`KeyError`; well-formed tables never hit this case). -/
def colOf (df : DataFrame) (c : String) : List Value :=
  (dictGet df.data c).getD []

/-- The row dict `{col: self.data[col][i] for col in self.columns}`
passed to a `filter` predicate. -/
def rowDict (df : DataFrame) (i : Nat) : List (String × Value) :=
  df.columns.map (fun c => (c, cellAt df c i))

/-- Lookup in a row dict, total with `null` junk. -/
def rowGet (row : List (String × Value)) (c : String) : Value :=
  ((row.find? (fun p => p.1 = c)).map Prod.snd).getD .null

/-- `DataFrame.select(columns)`: projection; `KeyError` when a
requested column is absent. -/
def DataFrame.select (df : DataFrame) (cols : List String) : Except String DataFrame :=
  if cols.all (fun c => df.columns.contains c) then
    mkDataFrame (dictOfPairs (cols.map (fun c => (c, colOf df c))))
  else .error "Column not found"

/-- `DataFrame.drop(columns)`: keep the columns not listed, then
`select` them. -/
def DataFrame.drop (df : DataFrame) (cols : List String) : Except String DataFrame :=
  df.select (df.columns.filter (fun c => !cols.contains c))

/-- The row indices kept by `DataFrame.filter(condition)`. -/
def filterIndices (df : DataFrame) (cond : List (String × Value) → Bool) : List Nat :=
  (List.range (rowCount df)).filter (fun i => cond (rowDict df i))

/-- `DataFrame.filter(condition)`: keep the rows whose row dict
satisfies the predicate, preserving order. -/
def DataFrame.filter (df : DataFrame) (cond : List (String × Value) → Bool) :
    Except String DataFrame :=
  mkDataFrame (dictOfPairs (df.columns.map (fun c =>
    (c, (filterIndices df cond).map (cellAt df c)))))

/-- `DataFrame.filter_by_value(column, value)`: rows where
`row[column] == value`. -/
def DataFrame.filter_by_value (df : DataFrame) (c : String) (v : Value) :
    Except String DataFrame :=
  if df.columns.contains c then
    df.filter (fun row => pyEq (rowGet row c) v)
  else .error "Column not found"

/-- The sort-key tuple of row `i` (`get_sort_key`). -/
def sortKey (df : DataFrame) (byCols : List String) (i : Nat) : List Value :=
  byCols.map (fun c => cellAt df c i)

/-- The comparison passed to the sort: ascending compares key `i` to
key `j`; descending (`reverse=True`) compares the other way round, so
ties are kept in input order either way. -/
def sortLe (df : DataFrame) (byCols : List String) (asc : Bool) (i j : Nat) : Bool :=
  if asc then tupLe (sortKey df byCols i) (sortKey df byCols j)
  else tupLe (sortKey df byCols j) (sortKey df byCols i)

/-- `sorted(row_indices, key=get_sort_key, reverse=not ascending)`:
Python's `sorted` is a stable sort, and on a total preorder every
stable sort produces the same list, so it is modelled by the stable
`List.insertionSort`. -/
def sortIndices (df : DataFrame) (byCols : List String) (asc : Bool) : List Nat :=
  List.insertionSort (fun i j => sortLe df byCols asc i j = true)
    (List.range (rowCount df))

/-- `DataFrame.sort(by, ascending)`: reorder all columns by the sorted
row indices. -/
def DataFrame.sort (df : DataFrame) (byCols : List String) (asc : Bool) :
    Except String DataFrame :=
  if byCols.all (fun c => df.columns.contains c) then
    mkDataFrame (dictOfPairs (df.columns.map (fun c =>
      (c, (sortIndices df byCols asc).map (cellAt df c)))))
  else .error "Column not found"

/-- `DataFrame.add_column(column_name, values)`: `ValueError` when the
value list length differs from the row count; otherwise copy all
columns and assign `new_data[column_name] = list(values)` — a dict
assignment, which overwrites in place when the name already exists. -/
def DataFrame.add_column (df : DataFrame) (name : String) (values : List Value) :
    Except String DataFrame :=
  if values.length ≠ rowCount df then
    .error "Values length must match DataFrame length"
  else
    mkDataFrame (dictSet (dictOfPairs (df.columns.map (fun c => (c, colOf df c))))
      name values)

/-- `DataFrame.rename_columns(mapping)`: build `new_data` keyed by the
mapped names and `new_columns` with every occurrence mapped, construct
the result, then overwrite `result.columns = new_columns` — the dict
deduplicates, the column list does not. -/
def DataFrame.rename_columns (df : DataFrame) (mapping : List (String × String)) :
    Except String DataFrame :=
  let newName := fun c => ((mapping.lookup c).getD c)
  let pairs := df.columns.map (fun c => (newName c, colOf df c))
  let newCols := df.columns.map newName
  (mkDataFrame (dictOfPairs pairs)).map (fun r => { r with columns := newCols })

/-- `DataFrame.fillna_column(column, value)`: replace `None` and `''`
entries of the column by `value`. -/
def DataFrame.fillna_column (df : DataFrame) (c : String) (v : Value) :
    Except String DataFrame :=
  if df.columns.contains c then
    mkDataFrame (dictSet (dictOfPairs (df.columns.map (fun c' => (c', colOf df c'))))
      c ((colOf df c).map (fun w => if w ≠ .null && !pyEq w (.str "") then w else v)))
  else .error "Column not found"

/-- `DataFrame.convert_column_type(column, target_type)`: the callable
`target_type` is modelled by a conversion function returning `none`
where the call would raise; `None` and `''` become `None`, a failed
conversion keeps the original value. -/
def DataFrame.convert_column_type (df : DataFrame) (c : String)
    (conv : Value → Option Value) : Except String DataFrame :=
  if df.columns.contains c then
    mkDataFrame (dictSet (dictOfPairs (df.columns.map (fun c' => (c', colOf df c'))))
      c ((colOf df c).map (fun v =>
        if v = .null || pyEq v (.str "") then .null else (conv v).getD v)))
  else .error "Column not found"

/-- Round half to even on a rational (the rule Python `round` applies;
the cases where the binary double representation perturbs a decimal
tie are outside this model and outside every verified property). -/
def rhe (q : Rat) : Int :=
  let f : Int := ⌊q⌋
  let r : Rat := q - (f : Rat)
  if r < 1 / 2 then f
  else if 1 / 2 < r then f + 1
  else if f % 2 = 0 then f else f + 1

/-- `round(v, decimals)` on a stored scalar: integers are unchanged,
floats are rounded half-to-even at `decimals` decimal places,
everything else passes through. -/
def roundValue (decimals : Nat) : Value → Value
  | .int n => .int n
  | .float q => .float ((rhe (q * (10 : Rat) ^ decimals) : Rat) / (10 : Rat) ^ decimals)
  | v => v

/-- `DataFrame.round_column(column, decimals)`. -/
def DataFrame.round_column (df : DataFrame) (c : String) (decimals : Nat) :
    Except String DataFrame :=
  if df.columns.contains c then
    mkDataFrame (dictSet (dictOfPairs (df.columns.map (fun c' => (c', colOf df c'))))
      c ((colOf df c).map (roundValue decimals)))
  else .error "Column not found"

/-- `DataFrame.head(n)`: first `n` rows (`values[:n]`). -/
def DataFrame.head (df : DataFrame) (n : Nat) : Except String DataFrame :=
  mkDataFrame (dictOfPairs (df.data.map (fun p => (p.1, p.2.take n))))

/-- `DataFrame.tail(n)`: last `n` rows (`values[-n:]`; `n = 0` slices
from index `-0 = 0`, i.e. keeps everything). -/
def DataFrame.tail (df : DataFrame) (n : Nat) : Except String DataFrame :=
  mkDataFrame (dictOfPairs (df.data.map (fun p =>
    (p.1, if n = 0 then p.2 else p.2.drop (p.2.length - n)))))

/-!  ## Aggregation (`DataFrame.aggregate`, `GroupBy`)  -/

/-- The values the aggregation filters OUT: `v is None or v == ''`
(the source keeps `v is not None and v != ''`). -/
def excludedVal (v : Value) : Bool :=
  v = .null || pyEq v (.str "")

/-- Python `+` on stored scalars as used by `sum(...)`: defined on
numbers, `none` models the `TypeError` raised otherwise. -/
def pyAdd : Value → Value → Option Value
  | .int n, .int m => some (.int (n + m))
  | .int n, .float q => some (.float ((n : Rat) + q))
  | .float q, .int n => some (.float (q + (n : Rat)))
  | .float q, .float r => some (.float (q + r))
  | _, _ => none

/-- Python `sum(values)`: fold `+` starting from the int `0`. -/
def pySum (vs : List Value) : Option Value :=
  vs.foldlM pyAdd (.int 0)

/-- The loop of Python `min`: keep the current minimum, replace it
only on strictly smaller values (so the first of several minima
wins); an incomparable pair raises. -/
def pyMinFold (m : Value) : List Value → Option Value
  | [] => some m
  | v :: rest =>
      if Comparable v m then pyMinFold (if pyLtB v m then v else m) rest
      else none

/-- The loop of Python `max`, dually. -/
def pyMaxFold (m : Value) : List Value → Option Value
  | [] => some m
  | v :: rest =>
      if Comparable v m then pyMaxFold (if pyLtB m v then v else m) rest
      else none

/-- The per-group (and whole-column) aggregation dispatch shared by
`DataFrame.aggregate` and `GroupBy.agg`: `count` counts every row;
`sum`/`mean`/`min`/`max` first drop `None` and `''`; `sum` of nothing
is the int `0`; `mean`/`min`/`max` of nothing is `None`; an
unsupported function name (`ValueError`), or an aggregation that
raises (`TypeError`), yields `none`. -/
def aggValue (funcName : String) (values : List Value) : Option Value :=
  if funcName = "count" then some (.int values.length)
  else
    let kept := values.filter (fun v => !excludedVal v)
    if funcName = "sum" then pySum kept
    else if funcName = "mean" then
      match kept with
      | [] => some .null
      | _ => (pySum kept).map (fun s => .float (s.toRat / (kept.length : Rat)))
    else if funcName = "min" then
      match kept with
      | [] => some .null
      | v :: rest => pyMinFold v rest
    else if funcName = "max" then
      match kept with
      | [] => some .null
      | v :: rest => pyMaxFold v rest
    else none

/-- `DataFrame.aggregate(column, func_name)`. -/
def DataFrame.aggregate (df : DataFrame) (c : String) (funcName : String) :
    Except String Value :=
  if df.columns.contains c then
    match aggValue funcName (colOf df c) with
    | some v => .ok v
    | none => .error "Unsupported aggregation function"
  else .error "Column not found"

/-- Insert a row index into the ordered group dict of
`GroupBy._create_groups`: tuple keys compare by Python `==`; an
existing key keeps its first-seen key object and position and appends
the index, a new key goes to the end. -/
def groupsInsert (groups : List (List Value × List Nat)) (key : List Value) (i : Nat) :
    List (List Value × List Nat) :=
  match groups with
  | [] => [(key, [i])]
  | (k, is) :: rest =>
      if tupEq k key then (k, is ++ [i]) :: rest
      else (k, is) :: groupsInsert rest key i

/-- `GroupBy._create_groups`: scan the rows top to bottom and collect
the row indices of each distinct grouping-key tuple, in first-seen
key order. -/
def createGroups (df : DataFrame) (byCols : List String) :
    List (List Value × List Nat) :=
  (List.range (rowCount df)).foldl (fun groups i =>
    groupsInsert groups (byCols.map (fun c => cellAt df c i)) i) []

/-- The grouping-key columns of the `GroupBy.agg` result: for each
grouping column its component of every group key, in group order. -/
def aggByData (byCols : List String) (groups : List (List Value × List Nat)) :
    List (String × List Value) :=
  byCols.enum.map (fun p => (p.2, groups.map (fun g => g.1.getD p.1 .null)))

/-- One aggregated output column of `GroupBy.agg`: for the target
column `c` and function `f`, the aggregate of the group's values of
`c` for every group, in group order; `none` models the `KeyError` /
`ValueError` / `TypeError` raised inside the loop (never reached when
there are no groups). -/
def aggColumn (df : DataFrame) (groups : List (List Value × List Nat))
    (c : String) (f : String) : Option (List Value) :=
  groups.mapM (fun g =>
    (dictGet df.data c).bind (fun col =>
      aggValue f (g.2.map (fun i => col.getD i .null))))

/-- `GroupBy.agg(aggregations)` with a dict argument (the string form
expands to such a dict): one output row per group in first-seen
order; the grouping columns come first, then one column per requested
aggregation target not itself a grouping column. -/
def GroupBy.agg (df : DataFrame) (byCols : List String)
    (aggs : List (String × String)) : Except String DataFrame :=
  let groups := createGroups df byCols
  let aggPairs := aggs.filter (fun p => !byCols.contains p.1)
  match aggPairs.mapM (fun p => (aggColumn df groups p.1 p.2).map (fun vs => (p.1, vs))) with
  | some aggData => mkDataFrame (dictOfPairs (aggByData byCols groups ++ aggData))
  | none => .error "Unsupported aggregation function"

/-- `DataFrame.groupby(by).agg(aggregations)`: `groupby` checks the
grouping columns exist and stores the frame and column list; `agg`
does the work. -/
def DataFrame.groupbyAgg (df : DataFrame) (byCols : List String)
    (aggs : List (String × String)) : Except String DataFrame :=
  if byCols.all (fun c => df.columns.contains c) then
    GroupBy.agg df byCols aggs
  else .error "Column not found"

/-!  ## Join (`DataFrame.join`)  -/

/-- Insert one right-table row index under its key into the ordered
hash index `right_index` (keys compare by Python `==`). -/
def rightIndexInsert (idx : List (Value × List Nat)) (key : Value) (j : Nat) :
    List (Value × List Nat) :=
  match idx with
  | [] => [(key, [j])]
  | (k, js) :: rest =>
      if pyEq k key then (k, js ++ [j]) :: rest
      else (k, js) :: rightIndexInsert rest key j

/-- The `right_index` dict: right-key value to list of right row
indices, built by scanning the right table top to bottom. -/
def buildRightIndex (right : DataFrame) (rightKey : String) : List (Value × List Nat) :=
  (List.range (rowCount right)).foldl (fun idx j =>
    rightIndexInsert idx (cellAt right rightKey j) j) []

/-- Lookup of a left key value in `right_index`
(`left_key_value in right_index`). -/
def rightIndexLookup (idx : List (Value × List Nat)) (key : Value) : Option (List Nat) :=
  match idx with
  | [] => none
  | (k, js) :: rest => if pyEq k key then some js else rightIndexLookup rest key

/-- The output column names: the left columns, then for each right
column either the name itself when fresh, the suffixed name on a
collision, or nothing for the shared join key. -/
def joinResultColumns (left right : DataFrame) (rightKey : String) : List String :=
  right.columns.foldl (fun acc c =>
    if !acc.contains c then acc ++ [c]
    else if c ≠ rightKey then acc ++ [c ++ "_right"]
    else acc) left.columns

/-- The right-hand part of one emitted row, as (output column, value)
pairs: the shared join key is skipped, colliding names get the
`_right` suffix. -/
def joinRightPairs (left right : DataFrame) (rightKey : String) (value : String → Value) :
    List (String × Value) :=
  right.columns.filterMap (fun c =>
    if c = rightKey && left.columns.contains c then none
    else if left.columns.contains c && c ≠ rightKey then some (c ++ "_right", value c)
    else some (c, value c))

/-- The rows emitted for left row `i`: one per matching right row when
its key is in the index; one all-`None` right part for `left`/`outer`
otherwise; nothing otherwise. -/
def joinRowsForLeft (left right : DataFrame) (leftKey rightKey : String) (how : String)
    (idx : List (Value × List Nat)) (i : Nat) : List (List (String × Value)) :=
  match rightIndexLookup idx (cellAt left leftKey i) with
  | some js => js.map (fun j =>
      left.columns.map (fun c => (c, cellAt left c i)) ++
        joinRightPairs left right rightKey (fun c => cellAt right c j))
  | none =>
      if how = "left" || how = "outer" then
        [left.columns.map (fun c => (c, cellAt left c i)) ++
          joinRightPairs left right rightKey (fun _ => .null)]
      else []

/-- The right row indices matched during the left-driven pass
(`matched_right_rows`). -/
def matchedRightRows (left : DataFrame) (leftKey : String)
    (idx : List (Value × List Nat)) : List Nat :=
  (List.range (rowCount left)).flatMap (fun i =>
    (rightIndexLookup idx (cellAt left leftKey i)).getD [])

/-- The rows emitted by the `right`/`outer` pass for the unmatched
right rows: left columns are `None` except the left key, which takes
the right key value. -/
def joinRowsForRight (left right : DataFrame) (leftKey rightKey : String)
    (matched : List Nat) : List (List (String × Value)) :=
  ((List.range (rowCount right)).filter (fun j => !matched.contains j)).map (fun j =>
    left.columns.map (fun c =>
      (c, if c = leftKey then cellAt right rightKey j else .null)) ++
      joinRightPairs left right rightKey (fun c => cellAt right c j))

/-- All rows of the join output, as (output column, value) pair
lists, in emission order. -/
def joinRows (left right : DataFrame) (leftKey rightKey : String) (how : String) :
    List (List (String × Value)) :=
  let idx := buildRightIndex right rightKey
  (List.range (rowCount left)).flatMap
    (joinRowsForLeft left right leftKey rightKey how idx) ++
    (if how = "right" || how = "outer" then
      joinRowsForRight left right leftKey rightKey
        (matchedRightRows left leftKey idx)
    else [])

/-- `DataFrame.join(other, ...)` with explicit left/right keys
(`on=K` passes the same name twice).  Each emitted row appends exactly
one value to every output column, so the columns are read back off
the emitted rows.  When two output columns would share a name (a
collision with an existing `*_right` name) the appends interleave into
one ragged dict entry and the constructor's length check fails; that
case is mapped to the constructor's error. -/
def DataFrame.join (left right : DataFrame) (leftKey rightKey : String)
    (how : String) : Except String DataFrame :=
  if !left.columns.contains leftKey then .error "Column not found in left DataFrame"
  else if !right.columns.contains rightKey then .error "Column not found in right DataFrame"
  else
    let rcols := joinResultColumns left right rightKey
    if rcols.Nodup then
      mkDataFrame (rcols.map (fun rc =>
        (rc, (joinRows left right leftKey rightKey how).map (fun row => rowGet row rc))))
    else .error "All columns must have the same length"

/-!  ## CSV readers (`read_csv`, `read_csv_parallel`, `_parse_csv_chunk`)

A text file is modelled as its character sequence; file positions
(`f.tell()`, `f.seek()`) are indices into it.  `f.readline()` returns
the characters from the current position up to and including the next
newline (or the rest of the file), and advances the position by the
returned length — at end of file it returns the empty string and does
not move.

The `while` loops advance the position by at least one character per
iteration or stop, so a fuel of `file.length + 1` iterations is
always enough; the loops are written with that fuel to keep them
structurally recursive.  -/

/-- `f.readline()` at a position: the characters up to and including
the next newline, or the rest of the file. -/
def lineAt (file : List Char) (pos : Nat) : List Char :=
  let rest := file.drop pos
  rest.take (rest.findIdx (fun c => c = '\n') + 1)

/-- The main `while f.tell() < end_byte` loop of `_parse_csv_chunk`:
collect the raw lines read (processing is applied afterwards; a
`continue` in the source skips processing, not reading) and return
the final file position. -/
def chunkMainLoop (file : List Char) (endByte : Nat) :
    Nat → Nat → List (List Char) × Nat
  | pos, fuel + 1 =>
      if pos < endByte then
        let line := lineAt file pos
        if line = [] then ([], pos)
        else
          let r := chunkMainLoop file endByte (pos + line.length) fuel
          (line :: r.1, r.2)
      else ([], pos)
  | pos, 0 => ([], pos)

/-- The bounded lookahead `for _ in range(5)` loop of
`_parse_csv_chunk`: up to five more raw lines are read, stopping when
the position is 5000 past the boundary or the file ends.  A line that
is blank after stripping still consumes an iteration, so raw lines
are collected here and filtered during processing. -/
def chunkExtraLoop (file : List Char) (endByte : Nat) :
    Nat → Nat → List (List Char)
  | _, 0 => []
  | pos, k + 1 =>
      if endByte + 5000 ≤ pos then []
      else
        let line := lineAt file pos
        if line = [] then []
        else line :: chunkExtraLoop file endByte (pos + line.length) k

/-- Per-line processing shared by all readers: strip the line, skip
it when blank, parse its fields, skip it when the field count does
not match the header, and convert each field (empty field to `None`
when type inference is off, `infer_type` otherwise). -/
def processLine (numCols : Nat) (sep : Char) (skipTI : Bool) (line : List Char) :
    Option (List Value) :=
  let s := stripChars line
  if s = [] then none
  else
    let fields := parse_csv_line s.asString sep
    if fields.length ≠ numCols then none
    else some (fields.map (fun f =>
      if skipTI then (if f = "" then .null else .str f) else infer_type f))

/-- `_parse_csv_chunk(filename, start_byte, end_byte, ...)`: when
`start_byte > 0` seek there and discard one line, otherwise discard
the line at position 0; then the main loop up to `end_byte`, then the
bounded lookahead; the rows are the processed lines in read order. -/
def parseCsvChunk (file : List Char) (startByte endByte : Nat) (numCols : Nat)
    (sep : Char) (skipTI : Bool) : List (List Value) :=
  let pos0 :=
    if 0 < startByte then startByte + (lineAt file startByte).length
    else (lineAt file 0).length
  let main := chunkMainLoop file endByte pos0 (file.length + 1)
  let extra := chunkExtraLoop file endByte main.2 5
  (main.1 ++ extra).filterMap (processLine numCols sep skipTI)

/-- The column names of a file: the header line, stripped, parsed,
each name stripped. -/
def headerColumns (file : List Char) (sep : Char) : List String :=
  (parse_csv_line (stripChars (lineAt file 0)).asString sep).map pyStrip

/-- `read_csv_parallel(...)`: read the header, split
`[header_size, file_size)` into `N` byte ranges (the last one absorbs
the remainder), parse every chunk, and concatenate the chunk rows in
chunk order.  Returns the header columns and the combined rows. -/
def read_csv_parallel (file : List Char) (sep : Char) (numProcesses : Nat)
    (skipTI : Bool) : List String × List (List Value) :=
  let headerSize := (lineAt file 0).length
  let columns := headerColumns file sep
  let chunkSize := (file.length - headerSize) / numProcesses
  let rows := (List.range numProcesses).flatMap (fun i =>
    parseCsvChunk file (headerSize + i * chunkSize)
      (if i < numProcesses - 1 then headerSize + (i + 1) * chunkSize
       else file.length)
      columns.length sep skipTI)
  (columns, rows)

/-- The `for line in f` loop of the sequential `read_csv`: all raw
lines from a position to the end of the file. -/
def allLinesFrom (file : List Char) : Nat → Nat → List (List Char)
  | _, 0 => []
  | pos, fuel + 1 =>
      let line := lineAt file pos
      if line = [] then [] else line :: allLinesFrom file (pos + line.length) fuel

/-- The sequential `read_csv(filename, ...)` (with `nrows=None`): the
processed rows of every line after the header, in file order.  This
is the reference list of well-formed data records of the file. -/
def read_csv_rows (file : List Char) (sep : Char) (skipTI : Bool) :
    List (List Value) :=
  let headerSize := (lineAt file 0).length
  (allLinesFrom file headerSize (file.length + 1)).filterMap
    (processLine (headerColumns file sep).length sep skipTI)

/-!  ## Heap model for observational immutability

Python lists are mutable objects; whether an operation mutates its
receiver is a property of object identities.  To state it, a store of
list cells is made explicit: a heap-level table holds its column
names and, per column, the index of the cell holding its values.
Every operation of the source ends in `DataFrame(new_data)`, whose
`__init__` copies each column with `list(values)`, and no operation
assigns to `self.data`, `self.columns` or calls a mutating method on
a stored list; so an operation reads its input cells, computes the
result table, and writes it to freshly allocated cells.  -/

/-- The store of allocated list cells. -/
abbrev Store := List (List Value)

/-- A table as the heap sees it: column names plus a pointer to the
cell of each column. -/
structure HeapDF where
  columns : List String
  cells : List (String × Nat)
deriving DecidableEq, Repr

/-- Contents of a cell (junk `[]` for a dangling pointer). -/
def readCell (σ : Store) (p : Nat) : List Value :=
  σ.getD p []

/-- The value-level table a heap table denotes. -/
def derefDF (σ : Store) (df : HeapDF) : DataFrame :=
  ⟨df.columns, df.cells.map (fun e => (e.1, readCell σ e.2))⟩

/-- All cell pointers of the table are allocated. -/
def ValidIn (σ : Store) (df : HeapDF) : Prop :=
  ∀ e ∈ df.cells, e.2 < σ.length

instance : ∀ σ df, Decidable (ValidIn σ df) := by
  intro σ df; unfold ValidIn; infer_instance

/-- Copy a computed table into freshly allocated cells (the
`list(values)` copies done by `DataFrame.__init__`). -/
def allocDF (σ : Store) (t : DataFrame) : Store × HeapDF :=
  (σ ++ t.data.map Prod.snd,
    ⟨t.columns, t.data.enum.map (fun p => (p.2.1, σ.length + p.1))⟩)

/-- Run one table operation against the heap: dereference the input,
compute, allocate the result.  A raised exception leaves the store
unchanged. -/
def runOp (op : DataFrame → Except String DataFrame) (σ : Store) (df : HeapDF) :
    Except String (Store × HeapDF) :=
  (op (derefDF σ df)).map (allocDF σ)

/-!  ## Basic lemmas about the dict model and the constructor  -/

theorem dictGet_dictSet_self (d : List (String × List Value)) (k : String)
    (v : List Value) : dictGet (dictSet d k v) k = some v := by
  induction d with
  | nil => simp [dictSet, dictGet]
  | cons e rest ih =>
      obtain ⟨k', v'⟩ := e
      by_cases h : k' = k <;> simp [dictSet, dictGet, h, ih]

theorem dictGet_dictSet_ne (d : List (String × List Value)) (k c : String)
    (v : List Value) (h : k ≠ c) : dictGet (dictSet d k v) c = dictGet d c := by
  induction d with
  | nil => simp [dictSet, dictGet, h]
  | cons e rest ih =>
      obtain ⟨k', v'⟩ := e
      by_cases h' : k' = k
      · subst h'; simp [dictSet, dictGet, h]
      · simp [dictSet, dictGet, h', ih]

theorem mem_dictSet (d : List (String × List Value)) (k : String) (v : List Value) :
    ∀ e ∈ dictSet d k v, e = (k, v) ∨ e ∈ d := by
  induction d with
  | nil => simp [dictSet]
  | cons hd rest ih =>
      obtain ⟨k', v'⟩ := hd
      intro e he
      by_cases h : k' = k
      · simp only [dictSet, if_pos h] at he
        rcases List.mem_cons.mp he with he | he
        · exact .inl he
        · exact .inr (List.mem_cons_of_mem _ he)
      · simp only [dictSet, if_neg h] at he
        rcases List.mem_cons.mp he with he | he
        · exact .inr (by simp [he])
        · rcases ih e he with h' | h'
          · exact .inl h'
          · exact .inr (List.mem_cons_of_mem _ h')

theorem dictSet_fresh (d : List (String × List Value)) (k : String) (v : List Value)
    (h : ∀ e ∈ d, e.1 ≠ k) : dictSet d k v = d ++ [(k, v)] := by
  induction d with
  | nil => simp [dictSet]
  | cons hd rest ih =>
      obtain ⟨k', v'⟩ := hd
      have hk : k' ≠ k := h (k', v') (by simp)
      simp only [dictSet, if_neg hk, List.cons_append, List.cons.injEq, true_and]
      exact ih (fun e he => h e (List.mem_cons_of_mem _ he))

theorem keys_dictSet_mem (d : List (String × List Value)) (k : String)
    (v : List Value) (h : k ∈ d.map Prod.fst) :
    (dictSet d k v).map Prod.fst = d.map Prod.fst := by
  induction d with
  | nil => simp at h
  | cons hd rest ih =>
      obtain ⟨k', v'⟩ := hd
      by_cases h' : k' = k
      · simp [dictSet, h']
      · have : k ∈ rest.map Prod.fst := by
          simp only [List.map_cons, List.mem_cons] at h
          rcases h with h | h
          · exact absurd h.symm h'
          · exact h
        simp [dictSet, h', ih this]

/-- Folding `dictSet` over pairs with pairwise-distinct fresh keys
appends them all. -/
theorem foldl_dictSet_fresh :
    ∀ (ps acc : List (String × List Value)),
      (ps.map Prod.fst).Nodup → (∀ e ∈ ps, ∀ e' ∈ acc, e'.1 ≠ e.1) →
      ps.foldl (fun d p => dictSet d p.1 p.2) acc = acc ++ ps := by
  intro ps
  induction ps with
  | nil => intro acc _ _; simp
  | cons p rest ih =>
      intro acc hnd hfresh
      rw [List.map_cons, List.nodup_cons] at hnd
      obtain ⟨hp, hrest⟩ := hnd
      have hset : dictSet acc p.1 p.2 = acc ++ [p] := by
        have := dictSet_fresh acc p.1 p.2
          (fun e he => hfresh p (by simp) e he)
        simpa using this
      have := ih (acc ++ [p]) hrest (by
        intro e he e' he'
        rcases List.mem_append.mp he' with h' | h'
        · exact hfresh e (List.mem_cons_of_mem _ he) e' h'
        · have : e' = p := by simpa using h'
          subst this
          intro hEq
          exact hp (by
            have : e.1 ∈ rest.map Prod.fst := List.mem_map_of_mem Prod.fst he
            rw [← hEq] at this
            exact this))
      calc (p :: rest).foldl (fun d p => dictSet d p.1 p.2) acc
          = rest.foldl (fun d p => dictSet d p.1 p.2) (dictSet acc p.1 p.2) := rfl
        _ = (acc ++ [p]) ++ rest := by rw [hset, this]
        _ = acc ++ p :: rest := by simp

/-- A pair list with distinct keys is its own dict. -/
theorem dictOfPairs_eq_self (ps : List (String × List Value))
    (h : (ps.map Prod.fst).Nodup) : dictOfPairs ps = ps := by
  have := foldl_dictSet_fresh ps [] h (by simp)
  simpa [dictOfPairs] using this

/-- Values reachable in a `dictSet`-fold are values of the inserted
pairs or of the initial dict. -/
theorem foldl_dictSet_val :
    ∀ (ps acc : List (String × List Value)),
      ∀ e ∈ ps.foldl (fun d p => dictSet d p.1 p.2) acc,
        (∃ p ∈ ps, e.2 = p.2) ∨ e ∈ acc := by
  intro ps
  induction ps with
  | nil => intro acc e he; exact .inr (by simpa using he)
  | cons q rest ih =>
      intro acc e he
      rcases ih (dictSet acc q.1 q.2) e he with ⟨p, hp, hpe⟩ | h
      · exact .inl ⟨p, List.mem_cons_of_mem _ hp, hpe⟩
      · rcases mem_dictSet acc q.1 q.2 e h with h' | h'
        · exact .inl ⟨q, by simp, by rw [h']⟩
        · exact .inr h'

/-- Every value stored in `dictOfPairs ps` is a value of `ps`. -/
theorem mem_dictOfPairs_val (ps : List (String × List Value)) :
    ∀ e ∈ dictOfPairs ps, ∃ p ∈ ps, e.2 = p.2 := by
  intro e he
  rcases foldl_dictSet_val ps [] e he with h | h
  · exact h
  · simp at h

/-- A list whose members all equal `n` is pairwise equal. -/
theorem pairwise_eq_const {l : List Nat} {n : Nat} (h : ∀ x ∈ l, x = n) :
    l.Pairwise (· = ·) := by
  induction l with
  | nil => exact .nil
  | cons a rest ih =>
      refine .cons (fun b hb => ?_) (ih (fun x hx => h x (List.mem_cons_of_mem _ hx)))
      rw [h a (by simp), h b (List.mem_cons_of_mem _ hb)]

/-- `DataFrame.__init__` succeeds on a dict whose columns share one
length. -/
theorem mkDataFrame_ok (d : List (String × List Value)) (n : Nat)
    (h : ∀ e ∈ d, e.2.length = n) :
    mkDataFrame d = .ok ⟨d.map Prod.fst, d⟩ := by
  unfold mkDataFrame
  rw [if_pos]
  apply pairwise_eq_const (n := n)
  intro x hx
  rcases List.mem_map.mp hx with ⟨e, he, hex⟩
  rw [← hex]
  exact h e he

/-- Rebuilding a unique-keyed dict by looking each key up returns the
same dict. -/
theorem rebuild_eq (d : List (String × List Value))
    (h : (d.map Prod.fst).Nodup) :
    (d.map Prod.fst).map (fun c => (c, (dictGet d c).getD [])) = d := by
  induction d with
  | nil => simp
  | cons e rest ih =>
      obtain ⟨k, v⟩ := e
      rw [List.map_cons, List.nodup_cons] at h
      obtain ⟨hk, hrest⟩ := h
      simp only [List.map_cons]
      have hhead : dictGet ((k, v) :: rest) k = some v := by simp [dictGet]
      have htail : ∀ c ∈ rest.map Prod.fst,
          ((c, (dictGet ((k, v) :: rest) c).getD [])) =
            ((c, (dictGet rest c).getD [])) := by
        intro c hc
        have : k ≠ c := fun hkc => hk (hkc ▸ hc)
        simp [dictGet, this]
      calc (k, (dictGet ((k, v) :: rest) k).getD []) ::
            (rest.map Prod.fst).map (fun c => (c, (dictGet ((k, v) :: rest) c).getD []))
          = (k, v) :: (rest.map Prod.fst).map (fun c => (c, (dictGet rest c).getD [])) := by
            rw [hhead]
            exact congrArg _ (List.map_congr_left htail)
        _ = (k, v) :: rest := by rw [ih hrest]

/-!  ## Heap preservation  -/

/-- Extending the store does not change any valid table's denotation. -/
theorem derefDF_append (σ Δ : Store) (g : HeapDF) (h : ValidIn σ g) :
    derefDF (σ ++ Δ) g = derefDF σ g := by
  unfold derefDF
  congr 1
  apply List.map_congr_left
  intro e he
  have hlt := h e he
  simp only [readCell]
  rw [List.getD_append _ _ _ _ hlt]

/-- Running any table operation against the heap leaves every valid
table's denotation unchanged: the store is only ever extended by
freshly allocated result cells. -/
theorem runOp_preserves (op : DataFrame → Except String DataFrame) (σ : Store)
    (df : HeapDF) (σ' : Store) (df' : HeapDF)
    (hok : runOp op σ df = .ok (σ', df')) (g : HeapDF) (h : ValidIn σ g) :
    derefDF σ' g = derefDF σ g := by
  unfold runOp at hok
  cases hop : op (derefDF σ df) with
  | error msg => rw [hop] at hok; exact absurd hok (by simp [Except.map])
  | ok t =>
      rw [hop] at hok
      simp only [Except.map, Except.ok.injEq] at hok
      have hσ : σ' = σ ++ t.data.map Prod.snd := by
        have := congrArg Prod.fst hok
        simpa [allocDF] using this.symm
      rw [hσ]
      exact derefDF_append σ _ g h

/-- C9: every transform operation (select, drop, filter,
filter_by_value, sort, add_column, rename_columns, fillna_column,
convert_column_type, round_column, head, tail, join, groupby/agg)
returns a new table and leaves the input table unchanged: in the heap
model, after a successful call on a valid table `df`, `df`'s
column-name list and every value of every column of `df` (its
denotation in the resulting store) are what they were before the
call. -/
theorem C9_transforms_leave_input_unchanged (σ : Store) (df : HeapDF)
    (hv : ValidIn σ df) :
    (∀ cols σ' df', runOp (fun t => t.select cols) σ df = .ok (σ', df') →
      derefDF σ' df = derefDF σ df) ∧
    (∀ cols σ' df', runOp (fun t => t.drop cols) σ df = .ok (σ', df') →
      derefDF σ' df = derefDF σ df) ∧
    (∀ cond σ' df', runOp (fun t => t.filter cond) σ df = .ok (σ', df') →
      derefDF σ' df = derefDF σ df) ∧
    (∀ c v σ' df', runOp (fun t => t.filter_by_value c v) σ df = .ok (σ', df') →
      derefDF σ' df = derefDF σ df) ∧
    (∀ byCols asc σ' df', runOp (fun t => t.sort byCols asc) σ df = .ok (σ', df') →
      derefDF σ' df = derefDF σ df) ∧
    (∀ name values σ' df', runOp (fun t => t.add_column name values) σ df = .ok (σ', df') →
      derefDF σ' df = derefDF σ df) ∧
    (∀ mapping σ' df', runOp (fun t => t.rename_columns mapping) σ df = .ok (σ', df') →
      derefDF σ' df = derefDF σ df) ∧
    (∀ c v σ' df', runOp (fun t => t.fillna_column c v) σ df = .ok (σ', df') →
      derefDF σ' df = derefDF σ df) ∧
    (∀ c conv σ' df', runOp (fun t => t.convert_column_type c conv) σ df = .ok (σ', df') →
      derefDF σ' df = derefDF σ df) ∧
    (∀ c decimals σ' df', runOp (fun t => t.round_column c decimals) σ df = .ok (σ', df') →
      derefDF σ' df = derefDF σ df) ∧
    (∀ n σ' df', runOp (fun t => t.head n) σ df = .ok (σ', df') →
      derefDF σ' df = derefDF σ df) ∧
    (∀ n σ' df', runOp (fun t => t.tail n) σ df = .ok (σ', df') →
      derefDF σ' df = derefDF σ df) ∧
    (∀ other lk rk how σ' df', runOp (fun t => t.join other lk rk how) σ df = .ok (σ', df') →
      derefDF σ' df = derefDF σ df) ∧
    (∀ byCols aggs σ' df', runOp (fun t => t.groupbyAgg byCols aggs) σ df = .ok (σ', df') →
      derefDF σ' df = derefDF σ df) :=
  ⟨fun _ σ' df' h => runOp_preserves _ σ df σ' df' h df hv,
   fun _ σ' df' h => runOp_preserves _ σ df σ' df' h df hv,
   fun _ σ' df' h => runOp_preserves _ σ df σ' df' h df hv,
   fun _ _ σ' df' h => runOp_preserves _ σ df σ' df' h df hv,
   fun _ _ σ' df' h => runOp_preserves _ σ df σ' df' h df hv,
   fun _ _ σ' df' h => runOp_preserves _ σ df σ' df' h df hv,
   fun _ σ' df' h => runOp_preserves _ σ df σ' df' h df hv,
   fun _ _ σ' df' h => runOp_preserves _ σ df σ' df' h df hv,
   fun _ _ σ' df' h => runOp_preserves _ σ df σ' df' h df hv,
   fun _ _ σ' df' h => runOp_preserves _ σ df σ' df' h df hv,
   fun _ σ' df' h => runOp_preserves _ σ df σ' df' h df hv,
   fun _ σ' df' h => runOp_preserves _ σ df σ' df' h df hv,
   fun _ _ _ _ σ' df' h => runOp_preserves _ σ df σ' df' h df hv,
   fun _ _ σ' df' h => runOp_preserves _ σ df σ' df' h df hv⟩

/-- Witness for C9: a concrete one-column table in a one-cell store,
run through `select`; its denotation is unchanged by the allocation
of the result. -/
theorem C9_transforms_leave_input_unchanged_witness :
    ValidIn [[Value.int 1]] ⟨["a"], [("a", 0)]⟩ ∧
    derefDF [[Value.int 1], [Value.int 1]] ⟨["a"], [("a", 0)]⟩ =
      derefDF [[Value.int 1]] ⟨["a"], [("a", 0)]⟩ :=
  ⟨by decide,
   (C9_transforms_leave_input_unchanged [[Value.int 1]] ⟨["a"], [("a", 0)]⟩
      (by decide)).1 ["a"] [[Value.int 1], [Value.int 1]] ⟨["a"], [("a", 1)]⟩ rfl⟩

/-- C10: `rename_columns` under the non-injective mapping
`{a ↦ c, b ↦ c}` on a table with columns `a`, `b` returns a table
whose ordered column-name list is `["c", "c"]` while its dict holds a
single column under `c` (the data of `b`, the data of `a` being
lost), so the unique-column-names well-formedness invariant fails. -/
theorem C10_rename_columns_breaks_unique_names :
    DataFrame.rename_columns ⟨["a", "b"], [("a", [.int 1]), ("b", [.int 2])]⟩
        [("a", "c"), ("b", "c")] =
      .ok ⟨["c", "c"], [("c", [.int 2])]⟩ ∧
    ¬ WF ⟨["c", "c"], [("c", [.int 2])]⟩ :=
  ⟨rfl, by decide⟩

/-- Counterexample to C2 as stated: `add_column` with the name of an
existing column does NOT leave that column's data alone — on
`{a: [1]}`, `add_column("a", [2])` succeeds and the data stored under
`a` becomes `[2]`, replacing `[1]`. -/
theorem C2_add_column_overwrites_counterexample :
    DataFrame.add_column ⟨["a"], [("a", [.int 1])]⟩ "a" [.int 2] =
      .ok ⟨["a"], [("a", [.int 2])]⟩ ∧
    dictGet [("a", [Value.int 2])] "a" ≠ some [Value.int 1] :=
  ⟨rfl, by decide⟩

/-- C2 (amended): `add_column(name, values)` fails if and only if
`len(values)` differs from the row count; on success the result
stores `values` under `name` — overwriting the data of an existing
column of that name in place — while every other existing column is
unchanged, and a fresh name is appended at the end of the column
list. -/
theorem C2_amended_add_column (df : DataFrame) (name : String) (values : List Value)
    (hwf : WF df) :
    ((df.add_column name values).isOk = true ↔ values.length = rowCount df) ∧
    (∀ df', df.add_column name values = .ok df' →
      dictGet df'.data name = some values ∧
      (∀ c ∈ df.columns, c ≠ name → dictGet df'.data c = dictGet df.data c) ∧
      df'.columns = (if name ∈ df.columns then df.columns else df.columns ++ [name])) := by
  obtain ⟨hcols, hnodup, hlen⟩ := hwf
  have hrebuild : df.columns.map (fun c => (c, colOf df c)) = df.data := by
    rw [hcols]
    simpa [colOf] using rebuild_eq df.data hnodup
  have hdop : dictOfPairs (df.columns.map (fun c => (c, colOf df c))) = df.data := by
    rw [hrebuild]
    exact dictOfPairs_eq_self df.data hnodup
  by_cases hl : values.length = rowCount df
  · have hmem : ∀ e ∈ dictSet df.data name values, e.2.length = rowCount df := by
      intro e he
      rcases mem_dictSet df.data name values e he with h | h
      · rw [h]; exact hl
      · exact hlen e h
    have hok : df.add_column name values =
        .ok ⟨(dictSet df.data name values).map Prod.fst, dictSet df.data name values⟩ := by
      unfold DataFrame.add_column
      rw [if_neg (by simp [hl]), hdop]
      exact mkDataFrame_ok _ (rowCount df) hmem
    constructor
    · rw [hok]; simp [Except.isOk, Except.toBool, hl]
    · intro df' heq
      rw [hok] at heq
      injection heq with heq
      subst heq
      refine ⟨dictGet_dictSet_self _ _ _, fun c hc hcne => dictGet_dictSet_ne _ _ _ _
        (fun h => hcne h.symm), ?_⟩
      by_cases hn : name ∈ df.columns
      · rw [if_pos hn, keys_dictSet_mem df.data name values (hcols ▸ hn), ← hcols]
      · rw [if_neg hn, dictSet_fresh df.data name values (by
          intro e he heq1
          exact hn (hcols ▸ (heq1 ▸ List.mem_map_of_mem Prod.fst he)))]
        rw [List.map_append, ← hcols]
        rfl
  · constructor
    · unfold DataFrame.add_column
      rw [if_pos (by simpa using hl)]
      simp [Except.isOk, Except.toBool, hl]
    · intro df' heq
      unfold DataFrame.add_column at heq
      rw [if_pos (by simpa using hl)] at heq
      exact absurd heq (by simp)

/-- Witness for the amended C2: adding a fresh column of matching
length to `{a: [1]}` succeeds. -/
theorem C2_amended_add_column_witness :
    ((⟨["a"], [("a", [Value.int 1])]⟩ : DataFrame).add_column "b" [Value.int 7]).isOk
      = true :=
  (C2_amended_add_column ⟨["a"], [("a", [Value.int 1])]⟩ "b" [Value.int 7]
    (by decide)).1.mpr (by decide)

/-- C7: the type-inference policy.  The empty string infers to Null;
a string not starting with a digit (or `-` digit) stays Text; a
digit-shaped string without `.` becomes Integer exactly when `int()`
parses it and stays Text otherwise; a digit-shaped string containing
`.` becomes Float exactly when `float()` parses it and stays Text
otherwise; `"1.2.3"` stays Text and `"007"` becomes Integer 7. -/
theorem C7_infer_type_policy :
    (∀ s : String, infer_type s = .null ↔ s = "") ∧
    (∀ s : String, s ≠ "" → (headIsDigit s || headIsNegDigit s) = false →
      infer_type s = .str s) ∧
    (∀ s : String, s ≠ "" → (headIsDigit s || headIsNegDigit s) = true →
      s.data.contains '.' = false →
      infer_type s = (match pyIntParse s with
        | some n => Value.int n
        | none => Value.str s)) ∧
    (∀ s : String, s ≠ "" → (headIsDigit s || headIsNegDigit s) = true →
      s.data.contains '.' = true →
      infer_type s = (match pyFloatParse s with
        | some q => Value.float q
        | none => Value.str s)) ∧
    infer_type "1.2.3" = .str "1.2.3" ∧
    infer_type "007" = .int 7 := by
  refine ⟨?_, ?_, ?_, ?_, by decide, by decide⟩
  · intro s
    constructor
    · intro h
      by_contra hs
      unfold infer_type at h
      rw [if_neg hs] at h
      split at h
      · split at h
        · split at h <;> simp_all
        · split at h <;> simp_all
      · simp_all
    · intro h
      subst h
      rfl
  · intro s hs hshape
    unfold infer_type
    rw [if_neg hs, hshape]
    rfl
  · intro s hs hshape hdot
    unfold infer_type
    rw [if_neg hs, hshape, if_pos rfl, hdot]
    rfl
  · intro s hs hshape hdot
    unfold infer_type
    rw [if_neg hs, hshape, if_pos rfl, hdot]
    rfl

/-- Witness for C7: `"42"` is digit-shaped without a dot and infers
to whatever `int()` parses it to. -/
theorem C7_infer_type_policy_witness :
    infer_type "42" = (match pyIntParse "42" with
      | some n => Value.int n
      | none => Value.str "42") :=
  C7_infer_type_policy.2.2.1 "42" (by decide) (by decide) (by decide)

/-!  ## C6: field decoding round-trip  -/

/-- A field encoded for CSV: every literal quote doubled. -/
def doubledQuotes (f : List Char) : List Char :=
  f.flatMap (fun c => if c = '"' then ['"', '"'] else [c])

/-- A field wrapped in quotes with its quotes doubled. -/
def encodeField (f : String) : List Char :=
  '"' :: (doubledQuotes f.data ++ ['"'])

/-- A line of quoted fields joined by the separator. -/
def encodeLine (fields : List String) (sep : Char) : List Char :=
  match fields with
  | [] => []
  | [f] => encodeField f
  | f :: rest => encodeField f ++ sep :: encodeLine rest sep

/-- Prepend characters onto the first field of a field list. -/
def prependField (p : List Char) : List (List Char) → List (List Char)
  | [] => [p]
  | f :: fs => (p ++ f) :: fs

theorem consField_ne_nil (c : Char) (l : List (List Char)) : consField c l ≠ [] := by
  cases l <;> simp [consField]

theorem consField_eq_prependField (c : Char) (l : List (List Char)) :
    consField c l = prependField [c] l := by
  cases l <;> rfl

theorem prependField_prependField (p q : List Char) (l : List (List Char)) :
    prependField p (prependField q l) = prependField (p ++ q) l := by
  cases l <;> simp [prependField]

theorem prependField_nil_of_ne (l : List (List Char)) (h : l ≠ []) :
    prependField [] l = l := by
  cases l with
  | nil => exact absurd rfl h
  | cons f fs => simp [prependField]

theorem parseFields_other (sep c : Char) (inQ : Bool) (rest : List Char)
    (h : c ≠ '"') :
    parseFields sep inQ (c :: rest) =
      if c = sep && !inQ then [] :: parseFields sep inQ rest
      else consField c (parseFields sep inQ rest) := by
  rw [parseFields.eq_def]
  rcases inQ <;> simp [h]

theorem parseFields_quoteTrue_other (sep c : Char) (rest : List Char) (h : c ≠ '"') :
    parseFields sep true ('"' :: c :: rest) = parseFields sep false (c :: rest) := by
  rw [parseFields.eq_def]
  simp [h]

theorem parseFields_ne_nil (sep : Char) :
    ∀ (l : List Char) (inQ : Bool), parseFields sep inQ l ≠ [] := by
  suffices h : ∀ (n : Nat) (l : List Char), l.length ≤ n → ∀ inQ,
      parseFields sep inQ l ≠ [] from
    fun l inQ => h l.length l le_rfl inQ
  intro n
  induction n with
  | zero =>
      intro l hl inQ
      rw [List.length_eq_zero.mp (Nat.le_zero.mp hl)]
      simp [parseFields]
  | succ n ih =>
      intro l hl inQ
      cases l with
      | nil => simp [parseFields]
      | cons c rest =>
          by_cases hc : c = '"'
          · subst hc
            cases inQ with
            | false =>
                have : parseFields sep false ('"' :: rest) = parseFields sep true rest := rfl
                rw [this]
                exact ih rest (by simpa using Nat.le_of_succ_le_succ hl) true
            | true =>
                cases rest with
                | nil => simp [parseFields]
                | cons c' rest' =>
                    by_cases hc' : c' = '"'
                    · subst hc'
                      have : parseFields sep true ('"' :: '"' :: rest') =
                          consField '"' (parseFields sep true rest') := rfl
                      rw [this]
                      exact consField_ne_nil _ _
                    · rw [parseFields_quoteTrue_other sep c' rest' hc']
                      exact ih (c' :: rest') (by simpa using Nat.le_of_succ_le_succ hl) false
          · rw [parseFields_other sep c inQ rest hc]
            by_cases hs : (c = sep && !inQ) = true
            · rw [if_pos hs]; simp
            · rw [if_neg hs]; exact consField_ne_nil _ _

/-- Scanning an encoded field body while in quotes: doubled quotes
decode to literal quotes and separators are content; the closing
quote returns to separator scanning. -/
theorem parseFields_quoted (sep : Char) (hsep : sep ≠ '"') (f : List Char)
    (rest : List Char) (hrest : rest = [] ∨ ∃ r, rest = sep :: r) :
    parseFields sep true (doubledQuotes f ++ '"' :: rest) =
      prependField f (parseFields sep false rest) := by
  induction f with
  | nil =>
      rcases hrest with h | ⟨r, h⟩ <;> subst h
      · have h1 : parseFields sep true ['"'] = [[]] := rfl
        simp [doubledQuotes, h1, parseFields, prependField]
      · rw [doubledQuotes]
        simp only [List.flatMap_nil, List.nil_append]
        rw [parseFields_quoteTrue_other sep sep r (by exact hsep)]
        rw [prependField_nil_of_ne _ (parseFields_ne_nil sep _ _)]
  | cons c f ih =>
      by_cases hc : c = '"'
      · subst hc
        have hdq : doubledQuotes ('"' :: f) = '"' :: '"' :: doubledQuotes f := by
          simp [doubledQuotes]
        rw [hdq]
        have : parseFields sep true ('"' :: '"' :: (doubledQuotes f ++ '"' :: rest)) =
            consField '"' (parseFields sep true (doubledQuotes f ++ '"' :: rest)) := rfl
        rw [List.cons_append, List.cons_append, this, ih]
        rw [consField_eq_prependField, prependField_prependField]
        rfl
      · have hdq : doubledQuotes (c :: f) = c :: doubledQuotes f := by
          simp [doubledQuotes, hc]
        rw [hdq, List.cons_append, parseFields_other sep c true _ hc]
        simp only [Bool.not_true, Bool.and_false, Bool.false_eq_true, if_false]
        rw [ih]
        rw [consField_eq_prependField, prependField_prependField]
        rfl

/-- Parsing an encoded line recovers exactly the encoded fields. -/
theorem parseFields_encode (sep : Char) (hsep : sep ≠ '"') :
    ∀ fields : List String, fields ≠ [] →
      parseFields sep false (encodeLine fields sep) = fields.map String.data := by
  intro fields
  induction fields with
  | nil => intro h; exact absurd rfl h
  | cons f rest ih =>
      intro _
      cases rest with
      | nil =>
          show parseFields sep false (encodeField f) = [f.data]
          rw [encodeField]
          have h1 : parseFields sep false ('"' :: (doubledQuotes f.data ++ ['"'])) =
              parseFields sep true (doubledQuotes f.data ++ ['"']) := rfl
          rw [h1]
          have h2 := parseFields_quoted sep hsep f.data [] (.inl rfl)
          simpa [parseFields, prependField] using h2
      | cons g rest' =>
          have henc : encodeLine (f :: g :: rest') sep =
              encodeField f ++ sep :: encodeLine (g :: rest') sep := rfl
          rw [henc, encodeField]
          have h1 : ('"' :: (doubledQuotes f.data ++ ['"'])) ++
              sep :: encodeLine (g :: rest') sep =
              '"' :: (doubledQuotes f.data ++ '"' :: sep :: encodeLine (g :: rest') sep) := by
            simp
          rw [h1]
          have h2 : parseFields sep false
              ('"' :: (doubledQuotes f.data ++ '"' :: sep :: encodeLine (g :: rest') sep)) =
              parseFields sep true
                (doubledQuotes f.data ++ '"' :: sep :: encodeLine (g :: rest') sep) := rfl
          rw [h2, parseFields_quoted sep hsep f.data _ (.inr ⟨_, rfl⟩)]
          rw [parseFields_other sep sep false _ hsep]
          rw [if_pos (by simp)]
          rw [ih (by simp)]
          simp [prependField]

/-- C6: `parse_csv_line` decodes doubled quotes inside a quoted
region to one literal quote and treats separators inside a quoted
region as field content — parsing any line of quote-encoded fields
returns exactly those fields — and every line, the empty line
included, yields at least one field. -/
theorem C6_parse_csv_line_fields :
    (∀ (line : String) (sep : Char), parse_csv_line line sep ≠ []) ∧
    (∀ sep : Char, parse_csv_line "" sep = [""]) ∧
    (∀ (sep : Char) (fields : List String), sep ≠ '"' → fields ≠ [] →
      parse_csv_line (encodeLine fields sep).asString sep = fields) := by
  refine ⟨?_, ?_, ?_⟩
  · intro line sep h
    exact parseFields_ne_nil sep line.data false (by
      simpa [parse_csv_line] using congrArg List.length h)
  · intro sep
    rfl
  · intro sep fields hsep hne
    unfold parse_csv_line
    have hdata : (encodeLine fields sep).asString.data = encodeLine fields sep := rfl
    rw [hdata, parseFields_encode sep hsep fields hne, List.map_map]
    have : (List.asString ∘ String.data) = id := by
      funext s
      cases s
      rfl
    rw [this, List.map_id]

/-- Witness for C6: a field with a literal quote and a field with a
comma round-trip through the encoder and parser. -/
theorem C6_parse_csv_line_fields_witness :
    parse_csv_line (encodeLine ["a\"b", "c,d"] ',').asString ',' = ["a\"b", "c,d"] :=
  C6_parse_csv_line_fields.2.2 ',' ["a\"b", "c,d"] (by decide) (by decide)

/-!  ## C4: first-seen group order  -/

/-- The grouping-key tuple of every row, top to bottom. -/
def rowKeys (df : DataFrame) (byCols : List String) : List (List Value) :=
  (List.range (rowCount df)).map (fun i => byCols.map (fun c => cellAt df c i))

/-- The distinct keys of a key sequence in first-seen order (the
specification-side description of the required group order). -/
def firstSeen (ks : List (List Value)) : List (List Value) :=
  ks.foldl (fun acc k => if acc.any (fun k' => tupEq k' k) then acc else acc ++ [k]) []

theorem map_fst_groupsInsert (gs : List (List Value × List Nat)) (k : List Value)
    (i : Nat) :
    (groupsInsert gs k i).map Prod.fst =
      if gs.any (fun g => tupEq g.1 k) then gs.map Prod.fst
      else gs.map Prod.fst ++ [k] := by
  induction gs with
  | nil => simp [groupsInsert]
  | cons g rest ih =>
      obtain ⟨k', is⟩ := g
      by_cases h : tupEq k' k = true
      · simp [groupsInsert, h]
      · simp only [groupsInsert, List.any_cons]
        rw [if_neg (by simpa using h)]
        simp only [List.map_cons]
        rw [ih]
        by_cases h' : rest.any (fun g => tupEq g.1 k) = true
        · rw [if_pos h', if_pos (by simp [h, h'])]
        · rw [if_neg h', if_neg (by simp [h, h'])]
          simp

theorem foldl_groupsInsert_fst (key : Nat → List Value) :
    ∀ (l : List Nat) (gs : List (List Value × List Nat)),
      (l.foldl (fun gs i => groupsInsert gs (key i) i) gs).map Prod.fst =
        l.foldl (fun acc i =>
          if acc.any (fun k' => tupEq k' (key i)) then acc else acc ++ [key i])
          (gs.map Prod.fst) := by
  intro l
  induction l with
  | nil => intro gs; rfl
  | cons i rest ih =>
      intro gs
      simp only [List.foldl_cons]
      rw [ih, map_fst_groupsInsert]
      have hany : (gs.any fun g => tupEq g.1 (key i)) =
          ((gs.map Prod.fst).any fun k' => tupEq k' (key i)) := by
        induction gs with
        | nil => rfl
        | cons g gsRest ihg => simp only [List.any_cons, List.map_cons, ihg]
      rw [hany]

/-- C4: `GroupBy` emits one output row per distinct grouping-key
tuple, in first-seen order of the key scanning rows top to bottom:
the key list of the created groups equals the first-seen
deduplication of the row keys, and the concrete CA/TX scenario
aggregates to exactly `[{s: CA, n: 7}, {s: TX, n: 3}]` in that
order. -/
theorem C4_groupby_first_seen_order :
    (∀ (df : DataFrame) (byCols : List String),
      (createGroups df byCols).map Prod.fst = firstSeen (rowKeys df byCols)) ∧
    DataFrame.groupbyAgg
        ⟨["s", "n"], [("s", [.str "CA", .str "TX", .str "CA"]),
                      ("n", [.int 5, .int 3, .int 2])]⟩
        ["s"] [("n", "sum")] =
      .ok ⟨["s", "n"], [("s", [.str "CA", .str "TX"]), ("n", [.int 7, .int 3])]⟩ := by
  constructor
  · intro df byCols
    unfold createGroups firstSeen rowKeys
    rw [foldl_groupsInsert_fst (fun i => byCols.map (fun c => cellAt df c i))
      (List.range (rowCount df)) []]
    rw [List.foldl_map]
    rfl
  · rfl

/-!  ## C5: aggregation null handling  -/

theorem aggValue_sum (vs : List Value) :
    aggValue "sum" vs = pySum (vs.filter (fun v => !excludedVal v)) := by
  unfold aggValue
  rw [if_neg (by decide), if_pos rfl]

theorem aggValue_mean (vs : List Value) :
    aggValue "mean" vs =
      (match vs.filter (fun v => !excludedVal v) with
       | [] => some Value.null
       | _ => (pySum (vs.filter (fun v => !excludedVal v))).map
           (fun s => .float (s.toRat / ((vs.filter (fun v => !excludedVal v)).length : Rat)))) := by
  unfold aggValue
  rw [if_neg (by decide), if_neg (by decide), if_pos rfl]

theorem aggValue_min (vs : List Value) :
    aggValue "min" vs =
      (match vs.filter (fun v => !excludedVal v) with
       | [] => some Value.null
       | v :: rest => pyMinFold v rest) := by
  unfold aggValue
  rw [if_neg (by decide), if_neg (by decide), if_neg (by decide), if_pos rfl]

theorem aggValue_max (vs : List Value) :
    aggValue "max" vs =
      (match vs.filter (fun v => !excludedVal v) with
       | [] => some Value.null
       | v :: rest => pyMaxFold v rest) := by
  unfold aggValue
  rw [if_neg (by decide), if_neg (by decide), if_neg (by decide), if_neg (by decide),
    if_pos rfl]

theorem aggValue_count (vs : List Value) :
    aggValue "count" vs = some (.int vs.length) := by
  unfold aggValue
  rw [if_pos rfl]

/-- C5: per group, Null and empty-string values are excluded from
sum/mean/min/max (inserting such a value anywhere changes nothing);
an all-excluded group sums to the int 0 while its mean/min/max are
Null; count counts every row including Null and empty-string rows;
and a concrete grouped table with a Null and an empty-string entry
sums, takes min and counts accordingly. -/
theorem C5_aggregation_null_handling :
    (∀ f ∈ (["sum", "mean", "min", "max"] : List String),
      ∀ (us vs : List Value) (e : Value), excludedVal e = true →
        aggValue f (us ++ e :: vs) = aggValue f (us ++ vs)) ∧
    (∀ vs : List Value, (∀ v ∈ vs, excludedVal v = true) →
      aggValue "sum" vs = some (.int 0) ∧
      aggValue "mean" vs = some .null ∧
      aggValue "min" vs = some .null ∧
      aggValue "max" vs = some .null) ∧
    (∀ vs : List Value, aggValue "count" vs = some (.int vs.length)) ∧
    DataFrame.groupbyAgg
        ⟨["g", "x"], [("g", [.int 1, .int 1, .int 2]),
                      ("x", [.null, .str "", .int 5])]⟩
        ["g"] [("x", "sum")] =
      .ok ⟨["g", "x"], [("g", [.int 1, .int 2]), ("x", [.int 0, .int 5])]⟩ ∧
    DataFrame.groupbyAgg
        ⟨["g", "x"], [("g", [.int 1, .int 1, .int 2]),
                      ("x", [.null, .str "", .int 5])]⟩
        ["g"] [("x", "min")] =
      .ok ⟨["g", "x"], [("g", [.int 1, .int 2]), ("x", [.null, .int 5])]⟩ ∧
    DataFrame.groupbyAgg
        ⟨["g", "x"], [("g", [.int 1, .int 1, .int 2]),
                      ("x", [.null, .str "", .int 5])]⟩
        ["g"] [("x", "count")] =
      .ok ⟨["g", "x"], [("g", [.int 1, .int 2]), ("x", [.int 2, .int 1])]⟩ := by
  have hfil : ∀ (us vs : List Value) (e : Value), excludedVal e = true →
      (us ++ e :: vs).filter (fun v => !excludedVal v) =
        (us ++ vs).filter (fun v => !excludedVal v) := by
    intro us vs e he
    simp [List.filter_append, List.filter_cons, he]
  refine ⟨?_, ?_, aggValue_count, rfl, rfl, rfl⟩
  · intro f hf us vs e he
    fin_cases hf
    · rw [aggValue_sum, aggValue_sum, hfil us vs e he]
    · rw [aggValue_mean, aggValue_mean, hfil us vs e he]
    · rw [aggValue_min, aggValue_min, hfil us vs e he]
    · rw [aggValue_max, aggValue_max, hfil us vs e he]
  · intro vs hvs
    have hkept : vs.filter (fun v => !excludedVal v) = [] := by
      rw [List.filter_eq_nil_iff]
      intro v hv
      simp [hvs v hv]
    refine ⟨?_, ?_, ?_, ?_⟩
    · rw [aggValue_sum, hkept]; rfl
    · rw [aggValue_mean, hkept]
    · rw [aggValue_min, hkept]
    · rw [aggValue_max, hkept]

/-- Witness for C5: a group holding only a Null and an empty string
sums to 0 and has Null mean. -/
theorem C5_aggregation_null_handling_witness :
    aggValue "sum" [Value.null, Value.str ""] = some (Value.int 0) ∧
    aggValue "mean" [Value.null, Value.str ""] = some Value.null :=
  ⟨(C5_aggregation_null_handling.2.1 [Value.null, Value.str ""] (by decide)).1,
   (C5_aggregation_null_handling.2.1 [Value.null, Value.str ""] (by decide)).2.1⟩

/-!  ## C8: sort stability  -/

theorem pyEq_symm (v w : Value) : pyEq v w = pyEq w v := by
  cases v <;> cases w <;> simp [pyEq, eq_comm]

theorem tupEq_symm : ∀ as bs : List Value, tupEq as bs = tupEq bs as
  | [], [] => rfl
  | [], _ :: _ => rfl
  | _ :: _, [] => rfl
  | a :: as, b :: bs => by
      simp only [tupEq, pyEq_symm a b, tupEq_symm as bs]

theorem tupLe_of_tupEq : ∀ as bs : List Value, tupEq as bs = true → tupLe as bs = true
  | [], [], _ => rfl
  | [], _ :: _, h => by simp [tupEq] at h
  | _ :: _, [], h => by simp [tupEq] at h
  | a :: as, b :: bs, h => by
      simp only [tupEq, Bool.and_eq_true] at h
      simp only [tupLe, if_pos h.1]
      exact tupLe_of_tupEq as bs h.2

theorem sortLe_of_tupEq (df : DataFrame) (byCols : List String) (asc : Bool)
    (i j : Nat) (h : tupEq (sortKey df byCols i) (sortKey df byCols j) = true) :
    sortLe df byCols asc i j = true := by
  cases asc with
  | true =>
      rw [sortLe, if_pos rfl]
      exact tupLe_of_tupEq _ _ h
  | false =>
      rw [sortLe, if_neg (by simp)]
      exact tupLe_of_tupEq _ _ (by rw [tupEq_symm]; exact h)

theorem pair_sublist_range {i j n : Nat} (hij : i < j) (hjn : j < n) :
    List.Sublist [i, j] (List.range n) := by
  have h1 : List.Sublist [i] (List.range j) :=
    List.singleton_sublist.mpr (List.mem_range.mpr hij)
  have h2 : List.Sublist ([i] ++ [j]) (List.range j ++ [j]) :=
    h1.append (List.Sublist.refl _)
  have h3 : List.range j ++ [j] = List.range (j + 1) := (List.range_succ j).symm
  have h4 : List.Sublist (List.range (j + 1)) (List.range n) :=
    List.range_sublist.mpr hjn
  exact (h3 ▸ h2 : List.Sublist [i, j] (List.range (j + 1))).trans h4

/-- The claim's precondition: every pair of sort-key values across
the sort columns and rows is mutually comparable. -/
def MutuallyComparable (df : DataFrame) (byCols : List String) : Prop :=
  ∀ c ∈ byCols, ∀ c' ∈ byCols, ∀ i < rowCount df, ∀ j < rowCount df,
    Comparable (cellAt df c i) (cellAt df c' j)

instance : ∀ df byCols, Decidable (MutuallyComparable df byCols) := by
  intro df byCols; unfold MutuallyComparable; infer_instance

/-- C8: `sort` is stable.  For every table, every list of existing
sort columns and either value of the ascending flag (with all sort
keys mutually comparable), the sort succeeds, the sorted index list
is a permutation of the row indices, and any two rows with equal
sort-key tuples keep their input relative order: the earlier index
still precedes the later one in the sorted index list. -/
theorem C8_sort_stability (df : DataFrame) (byCols : List String) (asc : Bool)
    (hby : byCols.all (fun c => df.columns.contains c) = true)
    (_hcomp : MutuallyComparable df byCols) :
    (df.sort byCols asc).isOk = true ∧
    (sortIndices df byCols asc).Perm (List.range (rowCount df)) ∧
    (∀ i j, i < j → j < rowCount df →
      tupEq (sortKey df byCols i) (sortKey df byCols j) = true →
      List.Sublist [i, j] (sortIndices df byCols asc)) := by
  refine ⟨?_, ?_, ?_⟩
  · unfold DataFrame.sort
    rw [if_pos hby]
    have hval : ∀ e ∈ dictOfPairs (df.columns.map (fun c =>
        (c, (sortIndices df byCols asc).map (cellAt df c)))),
        e.2.length = (sortIndices df byCols asc).length := by
      intro e he
      rcases mem_dictOfPairs_val _ e he with ⟨p, hp, hpe⟩
      rcases List.mem_map.mp hp with ⟨c, _, hc⟩
      rw [hpe, ← hc]
      simp
    rw [mkDataFrame_ok _ _ hval]
    rfl
  · exact List.perm_insertionSort _ _
  · intro i j hij hjn heq
    exact List.pair_sublist_insertionSort (sortLe_of_tupEq df byCols asc i j heq)
      (pair_sublist_range hij hjn)

/-- Witness for C8: sorting `[2, 1, 1]` ascending succeeds and keeps
the two tied rows (indices 1 and 2) in their input order. -/
theorem C8_sort_stability_witness :
    ((⟨["k"], [("k", [Value.int 2, Value.int 1, Value.int 1])]⟩ : DataFrame).sort
        ["k"] true).isOk = true ∧
    List.Sublist [1, 2]
      (sortIndices ⟨["k"], [("k", [Value.int 2, Value.int 1, Value.int 1])]⟩
        ["k"] true) :=
  ⟨(C8_sort_stability ⟨["k"], [("k", [Value.int 2, Value.int 1, Value.int 1])]⟩
      ["k"] true (by decide) (by decide)).1,
   (C8_sort_stability ⟨["k"], [("k", [Value.int 2, Value.int 1, Value.int 1])]⟩
      ["k"] true (by decide) (by decide)).2.2 1 2 (by decide) (by decide) (by decide)⟩

/-!  ## C3: join semantics  -/

/-- C3: the left-driven pass emits one output row per matching right
row for a matched left key (so duplicate right keys produce the full
group) and, under `left` or `outer` join, exactly one row for an
unmatched left key, with every right-side column of that row set to
Null; on the concrete tables `A = {K: [1, 2], v: [a, b]}` and
`B = {K: [1, 1, 3], w: [x, y, z]}`, the inner join has exactly the
two K=1 rows and the left join exactly three rows, the K=2 row
carrying `w = Null`; the outer join adds one row per unmatched right
row on top of the left-driven rows. -/
theorem C3_join_semantics :
    (∀ (left right : DataFrame) (lk rk : String),
      (joinRows left right lk rk "inner").length =
        ((List.range (rowCount left)).map (fun i =>
          ((rightIndexLookup (buildRightIndex right rk)
            (cellAt left lk i)).getD []).length)).sum) ∧
    (∀ (left right : DataFrame) (lk rk : String),
      (joinRows left right lk rk "left").length =
        ((List.range (rowCount left)).map (fun i =>
          match rightIndexLookup (buildRightIndex right rk) (cellAt left lk i) with
          | some js => js.length
          | none => 1)).sum) ∧
    DataFrame.join ⟨["K", "v"], [("K", [.int 1, .int 2]), ("v", [.str "a", .str "b"])]⟩
        ⟨["K", "w"], [("K", [.int 1, .int 1, .int 3]),
                      ("w", [.str "x", .str "y", .str "z"])]⟩ "K" "K" "inner" =
      .ok ⟨["K", "v", "w"], [("K", [.int 1, .int 1]), ("v", [.str "a", .str "a"]),
                             ("w", [.str "x", .str "y"])]⟩ ∧
    DataFrame.join ⟨["K", "v"], [("K", [.int 1, .int 2]), ("v", [.str "a", .str "b"])]⟩
        ⟨["K", "w"], [("K", [.int 1, .int 1, .int 3]),
                      ("w", [.str "x", .str "y", .str "z"])]⟩ "K" "K" "left" =
      .ok ⟨["K", "v", "w"],
           [("K", [.int 1, .int 1, .int 2]), ("v", [.str "a", .str "a", .str "b"]),
            ("w", [.str "x", .str "y", .null])]⟩ ∧
    (∀ (left right : DataFrame) (lk rk how : String)
      (idx : List (Value × List Nat)) (i : Nat),
      how = "left" ∨ how = "outer" →
      rightIndexLookup idx (cellAt left lk i) = none →
      joinRowsForLeft left right lk rk how idx i =
        [left.columns.map (fun c => (c, cellAt left c i)) ++
          joinRightPairs left right rk (fun _ => .null)]) ∧
    (∀ (left right : DataFrame) (rk : String),
      ∀ p ∈ joinRightPairs left right rk (fun _ => Value.null), p.2 = Value.null) ∧
    (∀ (left right : DataFrame) (lk rk : String),
      (joinRows left right lk rk "outer").length =
        ((List.range (rowCount left)).map (fun i =>
          match rightIndexLookup (buildRightIndex right rk) (cellAt left lk i) with
          | some js => js.length
          | none => 1)).sum +
        ((List.range (rowCount right)).filter (fun j =>
          !(matchedRightRows left lk (buildRightIndex right rk)).contains j)).length) ∧
    DataFrame.join ⟨["K", "v"], [("K", [.int 1, .int 2]), ("v", [.str "a", .str "b"])]⟩
        ⟨["K", "w"], [("K", [.int 1, .int 1, .int 3]),
                      ("w", [.str "x", .str "y", .str "z"])]⟩ "K" "K" "outer" =
      .ok ⟨["K", "v", "w"],
           [("K", [.int 1, .int 1, .int 2, .int 3]),
            ("v", [.str "a", .str "a", .str "b", .null]),
            ("w", [.str "x", .str "y", .null, .str "z"])]⟩ := by
  refine ⟨?_, ?_, rfl, rfl, ?_, ?_, ?_, rfl⟩
  · intro left right lk rk
    simp only [joinRows]
    rw [if_neg (by decide), List.append_nil, List.length_flatMap]
    congr 1
    apply List.map_congr_left
    intro i _
    unfold joinRowsForLeft
    cases h : rightIndexLookup (buildRightIndex right rk) (cellAt left lk i) with
    | some js => simp [h]
    | none => simp [h]
  · intro left right lk rk
    simp only [joinRows]
    rw [if_neg (by decide), List.append_nil, List.length_flatMap]
    congr 1
    apply List.map_congr_left
    intro i _
    unfold joinRowsForLeft
    cases h : rightIndexLookup (buildRightIndex right rk) (cellAt left lk i) with
    | some js => simp [h]
    | none => simp [h]
  · intro left right lk rk how idx i hhow hnone
    unfold joinRowsForLeft
    rw [hnone]
    rcases hhow with h | h <;> subst h <;> rw [if_pos (by decide)]
  · intro left right rk p hp
    rcases List.mem_filterMap.mp hp with ⟨c, _, hfc⟩
    by_cases h1 : c = rk ∧ left.columns.contains c = true
    · rw [if_pos (by
        simp only [Bool.and_eq_true, decide_eq_true_eq]
        exact ⟨h1.1, h1.2⟩)] at hfc
      exact absurd hfc (by simp)
    · rw [if_neg (by
        intro hb
        simp only [Bool.and_eq_true, decide_eq_true_eq] at hb
        exact h1 hb)] at hfc
      by_cases h2 : left.columns.contains c = true ∧ c ≠ rk
      · rw [if_pos (by
          simp only [Bool.and_eq_true, decide_eq_true_eq]
          exact ⟨h2.1, h2.2⟩)] at hfc
        injection hfc with hfc
        rw [← hfc]
      · rw [if_neg (by
          intro hb
          simp only [Bool.and_eq_true, decide_eq_true_eq] at hb
          exact h2 ⟨hb.1, hb.2⟩)] at hfc
        injection hfc with hfc
        rw [← hfc]
  · intro left right lk rk
    simp only [joinRows]
    rw [if_pos (by decide), List.length_append, List.length_flatMap]
    congr 1
    · congr 1
      apply List.map_congr_left
      intro i _
      unfold joinRowsForLeft
      cases h : rightIndexLookup (buildRightIndex right rk) (cellAt left lk i) with
      | some js => simp [h]
      | none => simp [h]
    · unfold joinRowsForRight
      rw [List.length_map]

/-- Witness for C3: the unmatched left row `K = 2` of the concrete
example emits, under left join, exactly one row whose right-side
column `w` is Null. -/
theorem C3_join_semantics_witness :
    joinRowsForLeft ⟨["K", "v"], [("K", [.int 1, .int 2]), ("v", [.str "a", .str "b"])]⟩
        ⟨["K", "w"], [("K", [.int 1, .int 1, .int 3]),
                      ("w", [.str "x", .str "y", .str "z"])]⟩ "K" "K" "left"
        (buildRightIndex ⟨["K", "w"], [("K", [.int 1, .int 1, .int 3]),
                                       ("w", [.str "x", .str "y", .str "z"])]⟩ "K") 1 =
      [[("K", Value.int 2), ("v", Value.str "b"), ("w", Value.null)]] := by
  have h := C3_join_semantics.2.2.2.2.1
    ⟨["K", "v"], [("K", [.int 1, .int 2]), ("v", [.str "a", .str "b"])]⟩
    ⟨["K", "w"], [("K", [.int 1, .int 1, .int 3]),
                  ("w", [.str "x", .str "y", .str "z"])]⟩ "K" "K" "left"
    (buildRightIndex ⟨["K", "w"], [("K", [.int 1, .int 1, .int 3]),
                                   ("w", [.str "x", .str "y", .str "z"])]⟩ "K") 1
    (.inl rfl) (by decide)
  rw [h]
  rfl

/-!  ## C1: the parallel reader against the sequential record list

On the four-record file `a\n1\n2\n3\n4\n` the sequential reader
returns all four records, but `_parse_csv_chunk` discards one line
whenever `start_byte > 0` — and the first chunk starts at
`header_size > 0`, so the first data record is discarded for every
worker count — while the five-line lookahead past `end_byte` re-reads
lines the next worker also parses, duplicating records at chunk
boundaries. -/

/-- C1 (evaluation at the failing input): the file's well-formed data
records are `1, 2, 3, 4`; one worker returns only `2, 3, 4` (record
`1` lost); two workers return `2, 3, 4, 4` (record `1` lost, record
`4` duplicated); and the two worker counts disagree. -/
theorem C1_parallel_reader_loses_and_duplicates_records :
    read_csv_rows ("a\n1\n2\n3\n4\n".data) ',' true =
      [[.str "1"], [.str "2"], [.str "3"], [.str "4"]] ∧
    (read_csv_parallel ("a\n1\n2\n3\n4\n".data) ',' 1 true).2 =
      [[.str "2"], [.str "3"], [.str "4"]] ∧
    (read_csv_parallel ("a\n1\n2\n3\n4\n".data) ',' 2 true).2 =
      [[.str "2"], [.str "3"], [.str "4"], [.str "4"]] ∧
    (read_csv_parallel ("a\n1\n2\n3\n4\n".data) ',' 1 true).2 ≠
      (read_csv_parallel ("a\n1\n2\n3\n4\n".data) ',' 2 true).2 :=
  ⟨rfl, rfl, rfl, by decide⟩
